import Mathlib

/-!
Shallow embedding of the message-store utilities (utils.py) and the request
handler (main.py) of the callflow relay service, together with proofs about
the store and prompt-building behaviour.

The backing JSON file is modelled by `FileSys`: its content is either missing,
syntactically corrupt, or a parsed list of turn records; two boolean flags
inject I/O failures on open-for-read and open-for-write.  Python exceptions
are modelled with `Except`; the try/except blocks of the source become total
functions returning defaults, so totality of the embedded functions is the
model of "never raises to the caller".
-/

/-- One turn record of the store (`message_data` in the source).  An absent
dictionary key is modelled by `none`. -/
structure Message where
  call_id : Option String
  request : String
  response : String
  timestamp : Option String
deriving DecidableEq

/-- The sort key `x.get("timestamp", "")` used by `load_messages`. -/
def Message.timestampKey (m : Message) : String :=
  m.timestamp.getD ("")

/-- The Python `<=` on strings: lexicographic comparison of Unicode code
points (`ord`), realised on the character lists of the two strings. -/
def charListLe : List Char → List Char → Bool
  | [], _ => true
  | _ :: _, [] => false
  | a :: as, b :: bs =>
    if a.toNat = b.toNat then charListLe as bs else decide (a.toNat < b.toNat)

/-- The Python comparison `a <= b` on whole strings. -/
def strLe (a b : String) : Bool :=
  charListLe a.data b.data

/-- The comparison underlying `all_messages.sort(key=lambda x: x.get("timestamp", ""))`:
ascending Python string comparison of timestamp keys. -/
def msgLe (a b : Message) : Prop :=
  strLe a.timestampKey b.timestampKey = true

instance : DecidableRel msgLe :=
  fun a b => inferInstanceAs (Decidable (strLe a.timestampKey b.timestampKey = true))

/-- The Python `list.sort` is a stable ascending sort; a stable sort is
uniquely determined by its comparison, and insertion sort (inserting earlier
elements in front of later key-equal ones) realises it. -/
def sortMessages (l : List Message) : List Message :=
  List.insertionSort msgLe l

/-- State of the backing file: absent, unparseable JSON, or a parsed array of
records. -/
inductive FileContent
  | missing
  | corrupt
  | records (msgs : List Message)
deriving DecidableEq

/-- Exceptions that the store code can encounter. -/
inductive PyErr
  | jsonDecodeError
  | ioError
deriving DecidableEq

/-- The backing file together with injectable I/O faults for the read and
write system calls. -/
structure FileSys where
  content : FileContent
  readFails : Bool
  writeFails : Bool
deriving DecidableEq

/-- Model of open-for-read followed by `json.load`: an I/O fault or a corrupt
file raises; otherwise the parsed record list is returned. -/
def readParse (fs : FileSys) : Except PyErr (List Message) :=
  if fs.readFails then .error .ioError
  else
    match fs.content with
    | .missing => .error .ioError
    | .corrupt => .error .jsonDecodeError
    | .records msgs => .ok msgs

/-- Model of open-for-write followed by `json.dump(msgs, f)`: an I/O fault
raises, otherwise the file now holds exactly `msgs`. -/
def writeFile (fs : FileSys) (msgs : List Message) : Except PyErr FileSys :=
  if fs.writeFails then .error .ioError
  else .ok { fs with content := .records msgs }

/-- The Python tail slice `l[-limit:]` for a natural `limit`: `l[-0:]` is the
whole list, and for `limit ≥ 1` it keeps the last `limit` elements. -/
def pyTailSlice (l : List α) (limit : Nat) : List α :=
  if limit = 0 then l else l.drop (l.length - limit)

/-- Embedding of `load_messages(filename, limit)` from utils.py: create the
file with an empty array when absent; otherwise parse, sort ascending by
timestamp key and return the last `limit` records.  Every exception inside
the try block is caught and turned into `[]`.  The (possibly updated) file
state is returned alongside the result. -/
def load_messages (fs : FileSys) (limit : Nat) : List Message × FileSys :=
  if fs.content = .missing then
    match writeFile fs [] with
    | .ok fsNew => ([], fsNew)
    | .error _ => ([], fs)
  else
    match readParse fs with
    | .error _ => ([], fs)
    | .ok all_messages =>
      let sorted := sortMessages all_messages
      let recent_messages := if sorted.length > limit then pyTailSlice sorted limit else sorted
      (recent_messages, fs)

/-- The timestamp backfill of `save_message`: when the record has no
timestamp key, assign the current time. -/
def stampMessage (message_data : Message) (now : String) : Message :=
  if message_data.timestamp = none then { message_data with timestamp := some now }
  else message_data

/-- Embedding of `save_message(message_data, filename)` from utils.py.  Note
that the source calls `load_messages(filename)` with the *default* limit of
10 before appending and rewriting the whole file.  `now` stands for
`datetime.now().isoformat()`.  Returns the boolean result and the new file
state. -/
def save_message (message_data : Message) (now : String) (fs : FileSys) : Bool × FileSys :=
  let loaded := load_messages fs 10
  let msg := stampMessage message_data now
  match writeFile loaded.2 (loaded.1 ++ [msg]) with
  | .ok fsNew => (true, fsNew)
  | .error _ => (false, loaded.2)

/-- Embedding of `get_call_history(call_id, filename)` from utils.py: load
with the default limit 10, then keep records whose `call_id` equals the
argument (`msg.get("call_id") == call_id`; a stored `None` never equals a
string). -/
def get_call_history (call_id : String) (fs : FileSys) : List Message × FileSys :=
  let loaded := load_messages fs 10
  (loaded.1.filter (fun msg => msg.call_id == some call_id), loaded.2)

/-- A LangChain chat entry: `SystemMessage`, `HumanMessage` or `AIMessage`. -/
inductive LCMessage
  | system (content : String)
  | human (content : String)
  | ai (content : String)
deriving DecidableEq

/-- The fixed persona instruction inserted at position 0 in main.py. -/
def personaPrompt : String :=
  "\n    You are Instant Alfred, a helpful insurance agent working for insurancemarket.ae\n    You are given a conversation history and a new message.\n    You need to respond to the new message based on the conversation history.\n    You are given the following information:\n    - The conversation history\n    - The new message\n\n    Try to keep the response short and concise and human like with a touch of humor.\n    dont indulge in any other conversation except the one related to the insurance.\n    "

/-- The `for json_message in call_messages` loop of main.py: each historical
turn contributes a `HumanMessage(request)` followed by an
`AIMessage(response)`. -/
def historyMessages : List Message → List LCMessage
  | [] => []
  | json_message :: rest =>
    .human json_message.request :: .ai json_message.response :: historyMessages rest

/-- Prompt assembly of the `/callflow` handler: history for the call id when
the header is present and non-empty (the `if call_id` truthiness test), the
current body appended, and the system persona inserted at the front.
Returns the entry list and the file state after the history lookup. -/
def callflowMessages (call_id : Option String) (body_text : String) (fs : FileSys) :
    List LCMessage × FileSys :=
  let hist :=
    match call_id with
    | none => (([] : List Message), fs)
    | some c => if c = "" then ([], fs) else get_call_history c fs
  (.system personaPrompt :: (historyMessages hist.1 ++ [.human body_text]), hist.2)

/-- The whole `/callflow` request: build the prompt, consult the completion
service (its reply `llm_response` is an external input), persist the turn
record with an explicit timestamp, return the reply. -/
def callflow (call_id : Option String) (body_text : String) (llm_response : String)
    (now : String) (fs : FileSys) : String × FileSys :=
  let built := callflowMessages call_id body_text fs
  let message_data : Message := ⟨call_id, body_text, llm_response, some now⟩
  let saved := save_message message_data now built.2
  (llm_response, saved.2)

/-- The record list currently stored in the file (empty when missing or
corrupt). -/
def fileRecords (fs : FileSys) : List Message :=
  match fs.content with
  | .records l => l
  | _ => []

/-- Concrete store for the C2 witness: three records with distinct
timestamps, listed out of chronological order. -/
def c2msgs : List Message :=
  [⟨some ("A"), "q2", "r2", some ("2024-01-02T00:00:00")⟩,
   ⟨some ("A"), "q1", "r1", some ("2024-01-01T00:00:00")⟩,
   ⟨some ("A"), "q3", "r3", some ("2024-01-03T00:00:00")⟩]

def c2fs : FileSys :=
  ⟨.records c2msgs, false, false⟩

/-- Concrete store for the C10 witness. -/
def c10msgs : List Message :=
  [⟨some ("B"), "q1", "r1", some ("2024-05-01T10:00:00")⟩,
   ⟨some ("B"), "q2", "r2", some ("2024-05-01T11:00:00")⟩]

def c10fs : FileSys :=
  ⟨.records c10msgs, false, false⟩

/-- Concrete store for C3: fifteen records; the three records of the call
`tgt` carry the three oldest timestamps, the other twelve belong to the call
`oth`. -/
def c3msgs : List Message :=
  [⟨some ("tgt"), "t1", "u1", some ("a")⟩,
   ⟨some ("tgt"), "t2", "u2", some ("b")⟩,
   ⟨some ("tgt"), "t3", "u3", some ("c")⟩,
   ⟨some ("oth"), "o01", "p01", some ("d")⟩,
   ⟨some ("oth"), "o02", "p02", some ("e")⟩,
   ⟨some ("oth"), "o03", "p03", some ("f")⟩,
   ⟨some ("oth"), "o04", "p04", some ("g")⟩,
   ⟨some ("oth"), "o05", "p05", some ("h")⟩,
   ⟨some ("oth"), "o06", "p06", some ("i")⟩,
   ⟨some ("oth"), "o07", "p07", some ("j")⟩,
   ⟨some ("oth"), "o08", "p08", some ("k")⟩,
   ⟨some ("oth"), "o09", "p09", some ("l")⟩,
   ⟨some ("oth"), "o10", "p10", some ("m")⟩,
   ⟨some ("oth"), "o11", "p11", some ("n")⟩,
   ⟨some ("oth"), "o12", "p12", some ("o")⟩]

def c3fs : FileSys :=
  ⟨.records c3msgs, false, false⟩

/-- Concrete store for the C4 witness: two turns of the call `A`. -/
def c4msgs : List Message :=
  [⟨some ("A"), "hello", "hi there", some ("2024-01-01T00:00:00")⟩,
   ⟨some ("A"), "car insurance?", "sure", some ("2024-01-01T00:01:00")⟩]

def c4fs : FileSys :=
  ⟨.records c4msgs, false, false⟩

/-- Concrete store and record for the C7 witness. -/
def c7fs : FileSys :=
  ⟨.records [⟨some ("A"), "old q", "old r", some ("2024-01-01T00:00:00")⟩], false, false⟩

def c7msg : Message :=
  ⟨some ("A"), "new q", "new r", none⟩

/-- Concrete store for C1: eleven records of the call `A` with ascending
single-character timestamps. -/
def c1msgs : List Message :=
  [⟨some ("A"), "q01", "r01", some ("a")⟩,
   ⟨some ("A"), "q02", "r02", some ("b")⟩,
   ⟨some ("A"), "q03", "r03", some ("c")⟩,
   ⟨some ("A"), "q04", "r04", some ("d")⟩,
   ⟨some ("A"), "q05", "r05", some ("e")⟩,
   ⟨some ("A"), "q06", "r06", some ("f")⟩,
   ⟨some ("A"), "q07", "r07", some ("g")⟩,
   ⟨some ("A"), "q08", "r08", some ("h")⟩,
   ⟨some ("A"), "q09", "r09", some ("i")⟩,
   ⟨some ("A"), "q10", "r10", some ("j")⟩,
   ⟨some ("A"), "q11", "r11", some ("k")⟩]

def c1fs : FileSys :=
  ⟨.records c1msgs, false, false⟩

def c1new : Message :=
  ⟨some ("A"), "q12", "r12", some ("l")⟩

/-- Small store for the witness of the amended C1. -/
def c1smallMsgs : List Message :=
  [⟨some ("B"), "q1", "r1", some ("2024-03-01T09:00:00")⟩,
   ⟨some ("B"), "q2", "r2", some ("2024-03-01T09:05:00")⟩]

def c1smallFs : FileSys :=
  ⟨.records c1smallMsgs, false, false⟩

def c1smallNew : Message :=
  ⟨some ("B"), "q3", "r3", some ("2024-03-01T09:10:00")⟩

/-- Record and store for the C8 counterexample. -/
def c8msg : Message :=
  ⟨some ("A"), "q", "r", some ("t")⟩

def c8fs : FileSys :=
  ⟨.corrupt, false, false⟩

theorem charListLe_total : ∀ a b : List Char, charListLe a b = true ∨ charListLe b a = true
  | [], _ => Or.inl rfl
  | _ :: _, [] => Or.inr rfl
  | x :: xs, y :: ys => by
    by_cases hxy : x.toNat = y.toNat
    · have hyx : y.toNat = x.toNat := hxy.symm
      rcases charListLe_total xs ys with h | h
      · exact Or.inl (by rw [charListLe, if_pos hxy]; exact h)
      · exact Or.inr (by rw [charListLe, if_pos hyx]; exact h)
    · have hyx : ¬ y.toNat = x.toNat := fun h => hxy h.symm
      rcases Nat.lt_or_ge x.toNat y.toNat with h | h
      · exact Or.inl (by rw [charListLe, if_neg hxy]; simpa using h)
      · exact Or.inr (by rw [charListLe, if_neg hyx]; simp; omega)

theorem charListLe_trans :
    ∀ a b c : List Char, charListLe a b = true → charListLe b c = true →
      charListLe a c = true
  | [], _, _ => fun _ _ => rfl
  | _ :: _, [], _ => fun h _ => by simp [charListLe] at h
  | _ :: _, _ :: _, [] => fun _ h => by simp [charListLe] at h
  | x :: xs, y :: ys, z :: zs => fun h₁ h₂ => by
    rw [charListLe] at h₁ h₂ ⊢
    by_cases hxy : x.toNat = y.toNat <;> by_cases hyz : y.toNat = z.toNat
    · rw [if_pos hxy] at h₁
      rw [if_pos hyz] at h₂
      rw [if_pos (hxy.trans hyz)]
      exact charListLe_trans xs ys zs h₁ h₂
    · rw [if_pos hxy] at h₁
      rw [if_neg hyz] at h₂
      have hlt : y.toNat < z.toNat := by simpa using h₂
      have hxz : ¬ x.toNat = z.toNat := by omega
      rw [if_neg hxz]
      simp
      omega
    · rw [if_neg hxy] at h₁
      rw [if_pos hyz] at h₂
      have hlt : x.toNat < y.toNat := by simpa using h₁
      have hxz : ¬ x.toNat = z.toNat := by omega
      rw [if_neg hxz]
      simp
      omega
    · rw [if_neg hxy] at h₁
      rw [if_neg hyz] at h₂
      have hlt₁ : x.toNat < y.toNat := by simpa using h₁
      have hlt₂ : y.toNat < z.toNat := by simpa using h₂
      have hxz : ¬ x.toNat = z.toNat := by omega
      rw [if_neg hxz]
      simp
      omega

theorem length_sortMessages (l : List Message) : (sortMessages l).length = l.length :=
  (List.perm_insertionSort msgLe l).length_eq

theorem sortMessages_perm (l : List Message) : (sortMessages l).Perm l :=
  List.perm_insertionSort msgLe l

theorem sortMessages_sorted (l : List Message) : List.Sorted msgLe (sortMessages l) := by
  haveI : IsTotal Message msgLe :=
    ⟨fun a b => charListLe_total a.timestampKey.data b.timestampKey.data⟩
  haveI : IsTrans Message msgLe :=
    ⟨fun a b c h₁ h₂ =>
      charListLe_trans a.timestampKey.data b.timestampKey.data c.timestampKey.data h₁ h₂⟩
  exact List.sorted_insertionSort msgLe l

/-- On a readable parsed file, `load_messages` with a positive limit returns
the tail of the sorted record list of length `min N limit`. -/
theorem load_messages_eq_drop (fs : FileSys) (msgs : List Message) (limit : Nat)
    (hc : fs.content = .records msgs) (hr : fs.readFails = false) (hl : 1 ≤ limit) :
    load_messages fs limit = ((sortMessages msgs).drop (msgs.length - limit), fs) := by
  have hmiss : ¬ fs.content = .missing := by rw [hc]; exact fun h => by cases h
  have hparse : readParse fs = .ok msgs := by
    unfold readParse
    rw [hr, hc]
    rfl
  unfold load_messages
  rw [if_neg hmiss, hparse]
  by_cases h : (sortMessages msgs).length > limit
  · simp only [h, if_true, pyTailSlice]
    rw [if_neg (by omega : ¬ limit = 0), length_sortMessages]
  · simp only [h, if_false]
    have hlen := length_sortMessages msgs
    have : msgs.length - limit = 0 := by omega
    rw [this, List.drop_zero]

/-- With limit 0 on a readable parsed file, `load_messages` returns the whole
sorted record list: the slice `all_messages[-0:]` is the whole list. -/
theorem load_messages_eq_zero_limit (fs : FileSys) (msgs : List Message)
    (hc : fs.content = .records msgs) (hr : fs.readFails = false) :
    load_messages fs 0 = (sortMessages msgs, fs) := by
  have hmiss : ¬ fs.content = .missing := by rw [hc]; exact fun h => by cases h
  have hparse : readParse fs = .ok msgs := by
    unfold readParse
    rw [hr, hc]
    rfl
  unfold load_messages
  rw [if_neg hmiss, hparse]
  by_cases h : (sortMessages msgs).length > 0
  · simp only [h, if_true, pyTailSlice, if_pos rfl]
  · simp only [h, if_false]

/-- A file holding an empty record array loads as the empty list whatever the
limit and the read-fault flag. -/
theorem load_messages_empty_records (fs : FileSys) (limit : Nat)
    (hc : fs.content = .records []) :
    (load_messages fs limit).1 = [] := by
  have hmiss : ¬ fs.content = .missing := by rw [hc]; exact fun h => by cases h
  unfold load_messages
  rw [if_neg hmiss]
  cases hrf : fs.readFails with
  | true =>
    have : readParse fs = .error .ioError := by unfold readParse; rw [hrf]; rfl
    rw [this]
  | false =>
    have : readParse fs = .ok [] := by unfold readParse; rw [hrf, hc]; rfl
    rw [this]
    rfl

/-- Loading never touches the fault flags of the file state. -/
theorem load_messages_flags (fs : FileSys) (limit : Nat) :
    (load_messages fs limit).2.readFails = fs.readFails ∧
    (load_messages fs limit).2.writeFails = fs.writeFails := by
  unfold load_messages writeFile
  by_cases hm : fs.content = .missing
  · rw [if_pos hm]
    cases hwf : fs.writeFails
    · simp [hwf]
    · simp [hwf]
  · rw [if_neg hm]
    cases hpr : readParse fs with
    | error e => exact ⟨rfl, rfl⟩
    | ok msgs => exact ⟨rfl, rfl⟩

/-- When the write succeeds, `save_message` returns `true` and the file ends
up holding exactly the records loaded under the default limit 10 followed by
the (possibly timestamp-backfilled) new record. -/
theorem save_message_eq (m : Message) (now : String) (fs : FileSys)
    (hw : fs.writeFails = false) :
    save_message m now fs
      = (true, { (load_messages fs 10).2 with
                  content := .records ((load_messages fs 10).1 ++ [stampMessage m now]) }) := by
  unfold save_message writeFile
  dsimp only
  rw [(load_messages_flags fs 10).2, hw]
  rfl

theorem stampMessage_isSome (m : Message) (now : String) :
    (stampMessage m now).timestamp.isSome = true := by
  unfold stampMessage
  cases h : m.timestamp with
  | none => rw [if_pos rfl]; rfl
  | some t =>
    rw [if_neg (by simp : ¬ (some t : Option String) = none), h]
    rfl

/-- C2: for a backing file holding records with pairwise-distinct timestamp
keys and any limit `K ≥ 1`, `load_messages` sorts the records ascending by
their timestamp key (a missing timestamp acting as the empty string, which
sorts first) and returns exactly the last `min N K` records of that sorted
sequence, still in ascending order. -/
theorem load_messages_last_min_sorted (fs : FileSys) (msgs : List Message) (K : Nat)
    (hc : fs.content = .records msgs) (hr : fs.readFails = false) (hK : 1 ≤ K)
    (_hdist : (msgs.map Message.timestampKey).Nodup) :
    (load_messages fs K).1 = (sortMessages msgs).drop (msgs.length - K) ∧
    (sortMessages msgs).Perm msgs ∧
    List.Sorted msgLe (load_messages fs K).1 ∧
    (load_messages fs K).1.length = min msgs.length K := by
  rw [load_messages_eq_drop fs msgs K hc hr hK]
  refine ⟨rfl, sortMessages_perm msgs, ?_, ?_⟩
  · exact List.Pairwise.sublist (List.drop_sublist _ _) (sortMessages_sorted msgs)
  · rw [List.length_drop, length_sortMessages]
    omega

theorem load_messages_last_min_sorted_witness :
    (load_messages c2fs 2).1 = (sortMessages c2msgs).drop (c2msgs.length - 2) ∧
    (sortMessages c2msgs).Perm c2msgs ∧
    List.Sorted msgLe (load_messages c2fs 2).1 ∧
    (load_messages c2fs 2).1.length = min c2msgs.length 2 :=
  load_messages_last_min_sorted c2fs c2msgs 2 rfl rfl (by decide) (by decide)

/-- C10: with limit 0 and at least one stored record, `load_messages` returns
all `N` records (the Python slice `all_messages[-0:]` is the whole sorted
list), not zero records. -/
theorem load_messages_zero_returns_all (fs : FileSys) (msgs : List Message)
    (hc : fs.content = .records msgs) (hr : fs.readFails = false) (_hne : msgs ≠ []) :
    (load_messages fs 0).1 = sortMessages msgs ∧
    (load_messages fs 0).1.length = msgs.length ∧
    (load_messages fs 0).1.Perm msgs := by
  rw [load_messages_eq_zero_limit fs msgs hc hr]
  exact ⟨rfl, length_sortMessages msgs, sortMessages_perm msgs⟩

theorem load_messages_zero_returns_all_witness :
    (load_messages c10fs 0).1 = sortMessages c10msgs ∧
    (load_messages c10fs 0).1.length = c10msgs.length ∧
    (load_messages c10fs 0).1.Perm c10msgs :=
  load_messages_zero_returns_all c10fs c10msgs rfl rfl (by decide)

/-- C5: loading a missing file creates it holding the empty JSON array and
returns the empty list (the embedding is total, so no exception escapes); a
second load of the now-existing empty file again returns the empty list. -/
theorem load_messages_missing_creates (fs : FileSys) (limit limitSnd : Nat)
    (hc : fs.content = .missing) (hw : fs.writeFails = false) :
    load_messages fs limit = ([], { fs with content := .records [] }) ∧
    (load_messages { fs with content := .records [] } limitSnd).1 = [] := by
  constructor
  · unfold load_messages
    rw [if_pos hc]
    have : writeFile fs [] = .ok { fs with content := .records [] } := by
      unfold writeFile
      rw [hw]
      rfl
    rw [this]
  · exact load_messages_empty_records _ limitSnd rfl

theorem load_messages_missing_creates_witness :
    load_messages ⟨.missing, false, false⟩ 10
      = ([], { (⟨.missing, false, false⟩ : FileSys) with content := .records [] }) ∧
    (load_messages { (⟨.missing, false, false⟩ : FileSys) with content := .records [] } 10).1 = [] :=
  load_messages_missing_creates ⟨.missing, false, false⟩ 10 10 rfl rfl

/-- C6: on a corrupt (unparseable) backing file, and on a read I/O fault
against an existing file, `load_messages` returns the empty list and leaves
the file untouched; being a total function of the state, it propagates no
exception. -/
theorem load_messages_corrupt_or_ioerror (fs : FileSys) (limit : Nat)
    (h : fs.content = .corrupt ∨ (fs.readFails = true ∧ fs.content ≠ .missing)) :
    load_messages fs limit = ([], fs) := by
  have hmiss : ¬ fs.content = .missing := by
    rcases h with h | h
    · rw [h]
      exact fun hh => by cases hh
    · exact h.2
  have herr : ∃ e, readParse fs = .error e := by
    unfold readParse
    rcases h with h | ⟨h, _⟩
    · cases hrf : fs.readFails with
      | true => exact ⟨.ioError, rfl⟩
      | false =>
        rw [h]
        exact ⟨.jsonDecodeError, rfl⟩
    · rw [h]
      exact ⟨.ioError, rfl⟩
  obtain ⟨e, he⟩ := herr
  unfold load_messages
  rw [if_neg hmiss, he]

theorem load_messages_corrupt_or_ioerror_witness :
    load_messages ⟨.corrupt, false, false⟩ 10 = ([], ⟨.corrupt, false, false⟩) :=
  load_messages_corrupt_or_ioerror ⟨.corrupt, false, false⟩ 10 (Or.inl rfl)

/-- C3: `get_call_history` first loads with the default limit 10 and only
then filters on the call id; in particular, on a 15-record store whose three
`tgt` records are all older than the most recent 10 records, the history of
`tgt` comes back empty rather than with those 3 records. -/
theorem get_call_history_limit_then_filter :
    (∀ (c : String) (fs : FileSys),
        (get_call_history c fs).1
          = ((load_messages fs 10).1).filter (fun msg => msg.call_id == some c)) ∧
    (get_call_history ("tgt") c3fs).1 = [] := by
  constructor
  · intro c fs
    rfl
  · decide

theorem historyMessages_eq_flatMap (l : List Message) :
    historyMessages l
      = l.flatMap (fun t => [LCMessage.human t.request, LCMessage.ai t.response]) := by
  induction l with
  | nil => rfl
  | cons x xs ih => simp [historyMessages, List.flatMap_cons, ih]

theorem length_historyMessages (l : List Message) :
    (historyMessages l).length = 2 * l.length := by
  induction l with
  | nil => rfl
  | cons x xs ih => simp [historyMessages, ih]; omega

/-- C4: with a present (non-empty) call identifier, the prompt handed to the
completion service is the system persona, then for each stored turn of the
call (in store order) a human entry with its request followed by an
assistant entry with its response, then a final human entry with the request
body: `2 * k + 2` entries in total. -/
theorem callflow_prompt_structure (c b : String) (fs : FileSys) (hc : ¬ c = "") :
    (callflowMessages (some c) b fs).1
      = LCMessage.system personaPrompt ::
          ((get_call_history c fs).1.flatMap
              (fun t => [LCMessage.human t.request, LCMessage.ai t.response])
            ++ [LCMessage.human b]) ∧
    (callflowMessages (some c) b fs).1.length
      = 2 * (get_call_history c fs).1.length + 2 := by
  dsimp only [callflowMessages]
  rw [if_neg hc]
  constructor
  · rw [historyMessages_eq_flatMap]
  · simp [List.length_append, length_historyMessages]

theorem callflow_prompt_structure_witness :
    (callflowMessages (some ("A")) ("renew it") c4fs).1
      = LCMessage.system personaPrompt ::
          ((get_call_history ("A") c4fs).1.flatMap
              (fun t => [LCMessage.human t.request, LCMessage.ai t.response])
            ++ [LCMessage.human ("renew it")]) ∧
    (callflowMessages (some ("A")) ("renew it") c4fs).1.length
      = 2 * (get_call_history ("A") c4fs).1.length + 2 :=
  callflow_prompt_structure ("A") ("renew it") c4fs (by decide)

/-- C9: when the call-identifier header is absent (`none`) or empty (`""`),
no history is loaded and the prompt is exactly the persona instruction
followed by one human entry holding the request body. -/
theorem callflow_no_history (cid : Option String) (b : String) (fs : FileSys)
    (h : cid = none ∨ cid = some "") :
    (callflowMessages cid b fs).1
      = [LCMessage.system personaPrompt, LCMessage.human b] := by
  rcases h with h | h <;> subst h <;> rfl

theorem callflow_no_history_witness :
    (callflowMessages none ("need insurance") c3fs).1
      = [LCMessage.system personaPrompt, LCMessage.human ("need insurance")] :=
  callflow_no_history none ("need insurance") c3fs (Or.inl rfl)

/-- C7: `save_message` backfills the timestamp exactly when the record lacks
one, leaves an existing timestamp unchanged, and the record it writes is
read back by an unbounded load of the resulting file, carrying a timestamp. -/
theorem save_message_backfills_timestamp (m : Message) (now : String) (fs : FileSys)
    (hw : fs.writeFails = false) (hr : fs.readFails = false) :
    (save_message m now fs).2.content
      = .records ((load_messages fs 10).1 ++ [stampMessage m now]) ∧
    (stampMessage m now).timestamp.isSome = true ∧
    (m.timestamp = none → (stampMessage m now).timestamp = some now) ∧
    (∀ t, m.timestamp = some t → stampMessage m now = m) ∧
    stampMessage m now ∈ (load_messages (save_message m now fs).2 0).1 := by
  rw [save_message_eq m now fs hw]
  refine ⟨rfl, stampMessage_isSome m now, ?_, ?_, ?_⟩
  · intro h
    unfold stampMessage
    rw [if_pos h]
  · intro t ht
    unfold stampMessage
    rw [if_neg (by simp [ht] : ¬ m.timestamp = none)]
  · have hrNew : ({ (load_messages fs 10).2 with
        content := .records ((load_messages fs 10).1 ++ [stampMessage m now]) } :
          FileSys).readFails = false := by
      have := (load_messages_flags fs 10).1
      simpa using this.trans hr
    rw [load_messages_eq_zero_limit _ ((load_messages fs 10).1 ++ [stampMessage m now]) rfl hrNew]
    rw [(sortMessages_perm _).mem_iff]
    exact List.mem_append_right _ (List.mem_singleton.mpr rfl)

theorem save_message_backfills_timestamp_witness :
    (save_message c7msg ("2024-01-02T00:00:00") c7fs).2.content
      = .records ((load_messages c7fs 10).1 ++ [stampMessage c7msg ("2024-01-02T00:00:00")]) ∧
    (stampMessage c7msg ("2024-01-02T00:00:00")).timestamp.isSome = true ∧
    (c7msg.timestamp = none →
      (stampMessage c7msg ("2024-01-02T00:00:00")).timestamp = some ("2024-01-02T00:00:00")) ∧
    (∀ t, c7msg.timestamp = some t → stampMessage c7msg ("2024-01-02T00:00:00") = c7msg) ∧
    stampMessage c7msg ("2024-01-02T00:00:00")
      ∈ (load_messages (save_message c7msg ("2024-01-02T00:00:00") c7fs).2 0).1 :=
  save_message_backfills_timestamp c7msg ("2024-01-02T00:00:00") c7fs rfl rfl

/-- C8 (amended): `save_message` is a total function of the modelled state
(no exception reaches the caller) and returns `false` exactly when the write
faults; a fault during the read phase is swallowed inside `load_messages`,
so `save_message` then still returns `true` with an empty prior history. -/
theorem save_message_result (m : Message) (now : String) (fs : FileSys) :
    (save_message m now fs).1 = !fs.writeFails := by
  unfold save_message writeFile
  dsimp only
  rw [(load_messages_flags fs 10).2]
  cases hwf : fs.writeFails
  · rfl
  · rfl

/-- C8 counterexample: on a corrupt store the read inside the
read-modify-write fails, yet `save_message` returns `true`, not `false` (and
silently replaces the corrupt content with just the new record). -/
theorem save_message_true_despite_read_error :
    (save_message c8msg ("now") c8fs).1 = true ∧
    (save_message c8msg ("now") c8fs).2.content = .records [c8msg] := by
  decide

/-- C1 counterexample: appending to a store of 11 records leaves a file of 11
records, not 12; the oldest record is no longer stored, so `save_message`
does not preserve the entire existing history and the store does not only
grow. -/
theorem save_message_drops_oldest :
    (fileRecords (save_message c1new ("now") c1fs).2).length = 11 ∧
    fileRecords (save_message c1new ("now") c1fs).2 ≠ c1msgs ++ [c1new] ∧
    (⟨some ("A"), "q01", "r01", some ("a")⟩ : Message)
      ∉ fileRecords (save_message c1new ("now") c1fs).2 := by
  decide

/-- C1 (amended): `save_message` loads only the most recent 10 records (the
default limit of `load_messages`), so the rewritten file holds the last
`min N 10` records of the sorted prior history plus the new record; when the
store held at most 10 records the whole history is preserved, otherwise the
oldest `N - 10` records are dropped. -/
theorem save_message_keeps_recent_ten (m : Message) (now : String) (fs : FileSys)
    (msgs : List Message) (hc : fs.content = .records msgs) (hr : fs.readFails = false)
    (hw : fs.writeFails = false) :
    fileRecords (save_message m now fs).2
      = (sortMessages msgs).drop (msgs.length - 10) ++ [stampMessage m now] ∧
    (fileRecords (save_message m now fs).2).length = min msgs.length 10 + 1 ∧
    (msgs.length ≤ 10 →
      (fileRecords (save_message m now fs).2).Perm (msgs ++ [stampMessage m now])) := by
  rw [save_message_eq m now fs hw, load_messages_eq_drop fs msgs 10 hc hr (by omega)]
  have hmain : fileRecords
      { fs with content := .records ((sortMessages msgs).drop (msgs.length - 10)
          ++ [stampMessage m now]) }
      = (sortMessages msgs).drop (msgs.length - 10) ++ [stampMessage m now] := rfl
  refine ⟨hmain, ?_, ?_⟩
  · rw [hmain, List.length_append, List.length_drop, length_sortMessages]
    simp
    omega
  · intro hle
    rw [hmain]
    have h0 : msgs.length - 10 = 0 := by omega
    rw [h0, List.drop_zero]
    exact (sortMessages_perm msgs).append (List.Perm.refl _)

theorem save_message_keeps_recent_ten_witness :
    fileRecords (save_message c1smallNew ("now") c1smallFs).2
      = (sortMessages c1smallMsgs).drop (c1smallMsgs.length - 10)
          ++ [stampMessage c1smallNew ("now")] ∧
    (fileRecords (save_message c1smallNew ("now") c1smallFs).2).length
      = min c1smallMsgs.length 10 + 1 ∧
    (c1smallMsgs.length ≤ 10 →
      (fileRecords (save_message c1smallNew ("now") c1smallFs).2).Perm
        (c1smallMsgs ++ [stampMessage c1smallNew ("now")])) :=
  save_message_keeps_recent_ten c1smallNew ("now") c1smallFs c1smallMsgs rfl rfl rfl
